import Mathlib

/-!
Verification of the semantic retrieval subsystem of kb-template-core:
text chunking, cosine-similarity vector search, per-source semantic and
hybrid search, multi-source aggregation, date-range filtering and vector
snapshot persistence.

Modelling conventions:
* JavaScript strings are modelled as `List Char` (`Str`), so all string
  operations are computable and decidable.
* JavaScript numbers are modelled as real numbers (`ℝ`); `Math.sqrt` is
  `Real.sqrt`.
* A thrown exception is modelled by `Except Str`.
* `Array.prototype.sort` with a consistent comparator is, per the
  ECMAScript specification, a stable sort; it is modelled by
  `List.insertionSort` (stable by construction).
* `undefined` metadata fields are modelled as `Option` values; JavaScript
  truthiness of a string is `truthy` (false for `undefined` and `""`).
-/

/-- JavaScript strings, modelled as lists of characters. -/
abbrev Str := List Char

/-- Embed a Lean string literal as a `Str`. -/
def str (s : String) : Str := s.data

/-- Whitespace test used by `trim` and by the regex class `\s`
(model: space, tab, line feed, carriage return). -/
def isWs (c : Char) : Bool := c = ' ' || c = '\t' || c = '\n' || c = '\r'

/-- `String.prototype.trim`: remove leading and trailing whitespace. -/
def strTrim (s : Str) : Str :=
  ((s.dropWhile isWs).reverse.dropWhile isWs).reverse

/-- `String.prototype.toLowerCase`, character by character. -/
def lowerStr (s : Str) : Str := s.map Char.toLower

/-- JavaScript truthiness of a possibly-`undefined` string:
`undefined` and the empty string are falsy. -/
def truthy : Option Str → Bool
  | none => false
  | some s => !s.isEmpty

/-- JavaScript string comparison `<` (code-unit lexicographic order). -/
def strLt : Str → Str → Bool
  | [], [] => false
  | [], _ :: _ => true
  | _ :: _, [] => false
  | a :: as, b :: bs => if a < b then true else if b < a then false else strLt as bs

/-- The first argument is an initial segment of the second. -/
def strHasPre : Str → Str → Bool
  | [], _ => true
  | _ :: _, [] => false
  | a :: as, b :: bs => a = b && strHasPre as bs

/-- Index of the first occurrence of `sep` in `s`, if any. -/
def findOcc (sep : Str) : Str → Option Nat
  | [] => if sep.isEmpty then some 0 else none
  | c :: rest =>
    if strHasPre sep (c :: rest) then some 0
    else (findOcc sep rest).map (· + 1)

theorem strHasPre_length {sep t : Str} (h : strHasPre sep t = true) :
    sep.length ≤ t.length := by
  induction sep generalizing t with
  | nil => simp
  | cons a as ih =>
    cases t with
    | nil => simp [strHasPre] at h
    | cons b bs =>
      simp only [strHasPre, Bool.and_eq_true] at h
      simpa [List.length_cons] using ih h.2

theorem findOcc_le {sep s : Str} {i : Nat} (h : findOcc sep s = some i) :
    i + sep.length ≤ s.length := by
  induction s generalizing i with
  | nil =>
    simp only [findOcc] at h
    rcases sep with _ | ⟨c, cs⟩
    · simp at h; omega
    · simp [List.isEmpty] at h
  | cons c rest ih =>
    simp only [findOcc] at h
    by_cases hp : strHasPre sep (c :: rest) = true
    · rw [if_pos hp] at h
      cases h
      simpa using strHasPre_length hp
    · rw [if_neg hp] at h
      rcases Option.map_eq_some'.mp h with ⟨j, hj, rfl⟩
      have := ih hj
      simp [List.length_cons]; omega

theorem findOcc_drop {sep s : Str} {i : Nat} (h : findOcc sep s = some i) :
    strHasPre sep (s.drop i) = true := by
  induction s generalizing i with
  | nil =>
    simp only [findOcc] at h
    rcases sep with _ | ⟨c, cs⟩
    · cases h; simp [strHasPre]
    · simp [List.isEmpty] at h
  | cons c rest ih =>
    simp only [findOcc] at h
    by_cases hp : strHasPre sep (c :: rest) = true
    · rw [if_pos hp] at h; cases h; simpa using hp
    · rw [if_neg hp] at h
      rcases Option.map_eq_some'.mp h with ⟨j, hj, rfl⟩
      simpa using ih hj

theorem strHasPre_decomp {sep t : Str} (h : strHasPre sep t = true) :
    t = sep ++ t.drop sep.length := by
  induction sep generalizing t with
  | nil => simp
  | cons a as ih =>
    cases t with
    | nil => simp [strHasPre] at h
    | cons b bs =>
      simp only [strHasPre, Bool.and_eq_true, decide_eq_true_eq] at h
      obtain ⟨rfl, h2⟩ := h
      simpa using ih h2

/-- One splitting pass of `String.prototype.split` for a non-empty
separator: cut at each occurrence, left to right. -/
def splitGo (sep : Str) (s : Str) : List Str :=
  if hsep : sep.isEmpty = true then [s]
  else
    match hfind : findOcc sep s with
    | none => [s]
    | some i => s.take i :: splitGo sep (s.drop (i + sep.length))
termination_by s.length
decreasing_by
  have hle := findOcc_le hfind
  have hpos : 0 < sep.length := by
    cases sep with
    | nil => simp at hsep
    | cons c cs => simp
  simp only [List.length_drop]
  omega

/-- `String.prototype.split(sep)`.  An empty separator splits into
single characters; `"".split(sep)` is `[""]`. -/
def splitOnSep (sep : Str) (s : Str) : List Str :=
  if sep.isEmpty then s.map (fun c => [c]) else splitGo sep s

/-- Join a list of pieces with a separator (inverse of splitting). -/
def joinSep (sep : Str) : List Str → Str
  | [] => []
  | [x] => x
  | x :: y :: xs => x ++ sep ++ joinSep sep (y :: xs)

theorem splitGo_ne_nil (sep s : Str) : splitGo sep s ≠ [] := by
  rw [splitGo]
  by_cases hsep : sep.isEmpty = true
  · simp [hsep]
  · simp only [hsep]
    cases hfind : findOcc sep s <;> simp

theorem joinSep_cons (sep x : Str) {xs : List Str} (h : xs ≠ []) :
    joinSep sep (x :: xs) = x ++ sep ++ joinSep sep xs := by
  cases xs with
  | nil => exact absurd rfl h
  | cons y ys => rfl

theorem joinSep_splitGo (sep : Str) (hsep : sep.isEmpty = false) :
    ∀ n (s : Str), s.length ≤ n → joinSep sep (splitGo sep s) = s := by
  intro n
  induction n with
  | zero =>
    intro s hs
    have : s = [] := List.length_eq_zero.mp (Nat.le_zero.mp hs)
    subst this
    have hnone : findOcc sep ([] : Str) = none := by
      simp only [findOcc]
      cases sep with
      | nil => simp at hsep
      | cons c cs => simp [List.isEmpty]
    rw [splitGo]
    simp only [hsep, Bool.false_eq_true, dite_false]
    split
    · rfl
    · rename_i i heq
      rw [hnone] at heq
      exact absurd heq (by simp)
  | succ n ih =>
    intro s hs
    rw [splitGo]
    simp only [hsep, Bool.false_eq_true, dite_false]
    split
    · rfl
    · rename_i i hfind
      have hpos : 0 < sep.length := by
        cases sep with
        | nil => simp at hsep
        | cons c cs => simp
      have hle := findOcc_le hfind
      have hlen : (s.drop (i + sep.length)).length ≤ n := by
        simp only [List.length_drop]; omega
      rw [joinSep_cons sep _ (splitGo_ne_nil sep _), ih _ hlen]
      have hdec := strHasPre_decomp (findOcc_drop hfind)
      calc s.take i ++ sep ++ s.drop (i + sep.length)
          = s.take i ++ sep ++ (s.drop i).drop sep.length := by
            rw [List.drop_drop, Nat.add_comm]
        _ = s.take i ++ (sep ++ (s.drop i).drop sep.length) := by
            rw [List.append_assoc]
        _ = s.take i ++ s.drop i := by rw [← hdec]
        _ = s := List.take_append_drop i s

theorem joinSep_splitOnSep (sep : Str) (hsep : sep.isEmpty = false) (s : Str) :
    joinSep sep (splitOnSep sep s) = s := by
  rw [splitOnSep, if_neg (by simp [hsep])]
  exact joinSep_splitGo sep hsep s.length s le_rfl


/-! ### Chunker (`chunkText`, mcp-server/src/core/indexer.js) -/

/-- Sentence-terminator class `[.!?]` of the sentence regex. -/
def isTermCh (c : Char) : Bool := c = '.' || c = '!' || c = '?'

mutual
/-- Scan for matches of `/[^.!?]+[.!?]+/g`: skip characters that cannot
start a match. -/
def sentSkip (s : Str) : List Str :=
  match s with
  | [] => []
  | c :: rest => if isTermCh c then sentSkip rest else sentBody [c] rest
termination_by s.length

/-- Collect the `[^.!?]+` part of a match (accumulator reversed);
reaching the end of input without a terminator discards the tail. -/
def sentBody (acc : Str) (s : Str) : List Str :=
  match s with
  | [] => []
  | c :: rest => if isTermCh c then sentTerm (c :: acc) rest else sentBody (c :: acc) rest
termination_by s.length

/-- Collect the `[.!?]+` part of a match (accumulator reversed). -/
def sentTerm (acc : Str) (s : Str) : List Str :=
  match s with
  | [] => [acc.reverse]
  | c :: rest => if isTermCh c then sentTerm (c :: acc) rest else acc.reverse :: sentBody [c] rest
termination_by s.length
end

/-- `section.match(/[^.!?]+[.!?]+/g) || [section]`: all sentence matches,
or the whole section when there is none. -/
def sentenceSplit (sec : Str) : List Str :=
  let m := sentSkip sec
  if m.isEmpty then [sec] else m

/-- Options destructured by `chunkText`; the source also accepts
`chunkOverlap` (default 200) without ever reading it again. -/
structure ChunkOptions where
  chunkSize : Nat
  chunkOverlap : Nat
  separator : Str

/-- Inner loop of the oversized-section branch: accumulate sentences,
flushing the buffer when adding the next sentence would exceed the size. -/
def chunkSent (chunkSize : Nat) (st : List Str × Str) (sent : Str) : List Str × Str :=
  let chunks := st.1
  let cur := st.2
  if cur.length + sent.length > chunkSize then
    (if cur.isEmpty then chunks else chunks ++ [strTrim cur], sent)
  else
    (chunks, cur ++ sent)

/-- Body of the main section loop of `chunkText`. -/
def chunkSec (chunkSize : Nat) (sep : Str) (st : List Str × Str) (sec : Str) : List Str × Str :=
  let chunks := st.1
  let cur := st.2
  if sec.length > chunkSize then
    let st1 := if cur.isEmpty then (chunks, ([] : Str)) else (chunks ++ [strTrim cur], ([] : Str))
    (sentenceSplit sec).foldl (chunkSent chunkSize) st1
  else
    if cur.length + sec.length > chunkSize then
      (chunks ++ [strTrim cur], sec)
    else
      (chunks, cur ++ (if cur.isEmpty then [] else sep) ++ sec)

/-- `chunkText(text, options)`: split on the separator, accumulate
sections into chunks bounded by `chunkSize`, splitting oversized sections
at sentence boundaries; drop empty chunks. -/
def chunkText (text : Str) (opts : ChunkOptions) : List Str :=
  let sections := splitOnSep opts.separator text
  let st := sections.foldl (chunkSec opts.chunkSize opts.separator) ([], [])
  let chunks := if st.2.isEmpty then st.1 else st.1 ++ [strTrim st.2]
  chunks.filter (fun c => c.length > 0)

/-- The default options of the source (`chunkSize` 1000, `chunkOverlap`
200, separator a blank line). -/
def defaultChunkOptions : ChunkOptions :=
  { chunkSize := 1000, chunkOverlap := 200, separator := str "\n\n" }

/-! ### Behaviour of `chunkText` on inputs below the size threshold -/

/-- The accumulation step of the within-size branch of the section loop:
`currentChunk += (currentChunk ? separator : '') + section`. -/
def accumSec (sep cur sec : Str) : Str :=
  cur ++ (if cur.isEmpty then [] else sep) ++ sec

/-- Iterated accumulation over the remaining sections. -/
def foldAcc (sep : Str) : Str → List Str → Str
  | cur, [] => cur
  | cur, s :: ss => foldAcc sep (accumSec sep cur s) ss

theorem length_le_foldAcc (sep cur : Str) (ss : List Str) :
    cur.length ≤ (foldAcc sep cur ss).length := by
  induction ss generalizing cur with
  | nil => simp [foldAcc]
  | cons s ss ih =>
    have h1 : cur.length ≤ (accumSec sep cur s).length := by
      simp [accumSec]
    exact le_trans h1 (ih _)

theorem length_accumSec (sep cur sec : Str) :
    cur.length + sec.length ≤ (accumSec sep cur sec).length := by
  simp [accumSec]

/-- As long as everything that remains to be accumulated fits within the
size bound, the section loop never flushes: it just accumulates. -/
theorem foldl_chunkSec_no_flush (size : Nat) (sep : Str) :
    ∀ (secs : List Str) (chunks : List Str) (cur : Str),
      (foldAcc sep cur secs).length ≤ size →
      secs.foldl (chunkSec size sep) (chunks, cur) = (chunks, foldAcc sep cur secs) := by
  intro secs
  induction secs with
  | nil => intro chunks cur _; simp [foldAcc]
  | cons s ss ih =>
    intro chunks cur h
    simp only [foldAcc] at h
    have hstep : (accumSec sep cur s).length ≤ (foldAcc sep (accumSec sep cur s) ss).length :=
      length_le_foldAcc sep _ ss
    have hacc := length_accumSec sep cur s
    have h1 : ¬ s.length > size := by omega
    have h2 : ¬ cur.length + s.length > size := by omega
    have hsec : chunkSec size sep (chunks, cur) s = (chunks, accumSec sep cur s) := by
      simp only [chunkSec]
      rw [if_neg h1, if_neg h2]
      rfl
    rw [List.foldl_cons, hsec, ih _ _ h]
    simp [foldAcc]

theorem foldAcc_ne_nil_eq (sep : Str) :
    ∀ (ss : List Str) (cur : Str), cur ≠ [] →
      foldAcc sep cur ss = joinSep sep (cur :: ss) := by
  intro ss
  induction ss with
  | nil => intro cur _; rfl
  | cons s ss ih =>
    intro cur h
    simp only [foldAcc]
    have hacc : accumSec sep cur s = cur ++ sep ++ s := by
      have : cur.isEmpty = false := by
        cases cur with
        | nil => exact absurd rfl h
        | cons c cs => rfl
      simp [accumSec, this]
    rw [hacc, ih _ (by simp [h])]
    cases ss with
    | nil => simp [joinSep, List.append_assoc]
    | cons t ts =>
      show joinSep sep ((cur ++ sep ++ s) :: t :: ts) = joinSep sep (cur :: s :: t :: ts)
      have e1 : ∀ (x y : Str) (xs : List Str),
          joinSep sep (x :: y :: xs) = x ++ sep ++ joinSep sep (y :: xs) := fun _ _ _ => rfl
      rw [e1, e1, e1]
      simp [List.append_assoc]

/-- `k`-fold repetition of the separator. -/
def repeatStr (sep : Str) : Nat → Str
  | 0 => []
  | k + 1 => sep ++ repeatStr sep k

/-- The loop accumulation differs from the full separator-join of the
sections only by dropped leading separator copies (those added while the
buffer was still empty). -/
theorem joinSep_eq_repeat_foldAcc (sep : Str) :
    ∀ secs : List Str, ∃ k, joinSep sep secs = repeatStr sep k ++ foldAcc sep [] secs := by
  intro secs
  induction secs with
  | nil => exact ⟨0, rfl⟩
  | cons s ss ih =>
    by_cases hs : s = []
    · subst hs
      cases ss with
      | nil => exact ⟨0, rfl⟩
      | cons t ts =>
        obtain ⟨k, hk⟩ := ih
        refine ⟨k + 1, ?_⟩
        rw [joinSep_cons _ _ (by simp)]
        simp only [foldAcc, repeatStr]
        have hacc : accumSec sep [] [] = [] := rfl
        rw [hacc] at *
        simp only [List.nil_append]
        rw [hk]
        simp only [foldAcc]
        simp [List.append_assoc]
    · refine ⟨0, ?_⟩
      simp only [foldAcc]
      have hacc : accumSec sep [] s = s := by simp [accumSec]
      rw [hacc, foldAcc_ne_nil_eq sep ss s hs]
      simp [repeatStr]

theorem dropWhile_append_ws {l1 l2 : Str} (h : ∀ c ∈ l1, isWs c = true) :
    (l1 ++ l2).dropWhile isWs = l2.dropWhile isWs := by
  induction l1 with
  | nil => rfl
  | cons c cs ih =>
    have hc : isWs c = true := h c (by simp)
    simp only [List.cons_append, List.dropWhile_cons, hc, if_true]
    exact ih (fun d hd => h d (by simp [hd]))

theorem strTrim_repeat_ws {sep : Str} (hws : ∀ c ∈ sep, isWs c = true) (k : Nat) (r : Str) :
    strTrim (repeatStr sep k ++ r) = strTrim r := by
  induction k with
  | zero => rfl
  | succ k ih =>
    have h1 : (sep ++ (repeatStr sep k ++ r)).dropWhile isWs
        = (repeatStr sep k ++ r).dropWhile isWs := dropWhile_append_ws hws
    calc strTrim (repeatStr sep (k + 1) ++ r)
        = strTrim (sep ++ (repeatStr sep k ++ r)) := by
          simp [repeatStr, List.append_assoc]
      _ = strTrim (repeatStr sep k ++ r) := by simp only [strTrim, h1]
      _ = strTrim r := ih

/-- On any input whose length does not exceed the configured size (with a
whitespace separator such as the default blank line), `chunkText` returns
the trimmed input as a single chunk, unless the input trims to nothing,
in which case it returns no chunks. -/
theorem chunkText_small (text : Str) (size o : Nat) (sep : Str)
    (hsep : sep.isEmpty = false) (hws : ∀ c ∈ sep, isWs c = true)
    (hlen : text.length ≤ size) :
    chunkText text ⟨size, o, sep⟩ =
      if (strTrim text).isEmpty then [] else [strTrim text] := by
  have hsplit : splitOnSep sep text = splitGo sep text := by
    rw [splitOnSep, if_neg (by simp [hsep])]
  have hjoin : joinSep sep (splitGo sep text) = text :=
    joinSep_splitGo sep hsep text.length text le_rfl
  obtain ⟨k, hk⟩ := joinSep_eq_repeat_foldAcc sep (splitGo sep text)
  set cur0 := foldAcc sep [] (splitGo sep text) with hcur0
  have htext : text = repeatStr sep k ++ cur0 := by rw [← hjoin, hk]
  have hlen0 : cur0.length ≤ size := by
    have h1 : cur0.length ≤ text.length := by
      rw [htext]; simp
    omega
  have hfold := foldl_chunkSec_no_flush size sep (splitGo sep text) [] [] (by
    rw [← hcur0]; exact hlen0)
  have htrim : strTrim cur0 = strTrim text := by
    rw [htext, strTrim_repeat_ws hws]
  simp only [chunkText, hsplit, hfold, ← hcur0]
  by_cases hc : cur0.isEmpty = true
  · have hc' : cur0 = [] := List.isEmpty_iff.mp hc
    have ht0 : strTrim text = [] := by rw [← htrim, hc']; rfl
    simp [hc, ht0]
  · simp only [hc, Bool.false_eq_true, if_false]
    rw [htrim]
    by_cases ht : (strTrim text).isEmpty = true
    · have ht' : strTrim text = [] := List.isEmpty_iff.mp ht
      simp [ht', ht]
    · have ht' : 0 < (strTrim text).length := by
        have : strTrim text ≠ [] := fun hx => ht (by simp [hx])
        exact List.length_pos.mpr this
      simp [ht, List.filter, ht']

theorem splitGo_of_none {sep s : Str} (hsep : sep.isEmpty = false)
    (h : findOcc sep s = none) : splitGo sep s = [s] := by
  rw [splitGo]
  simp only [hsep, Bool.false_eq_true, dite_false]
  split
  · rfl
  · rename_i i heq
    rw [h] at heq
    exact absurd heq (by simp)

theorem chunkText_space_eval : chunkText (str " ") defaultChunkOptions = [] := by
  have h1 : splitOnSep (str "\n\n") (str " ") = [str " "] := by
    rw [splitOnSep, if_neg (by decide)]
    exact splitGo_of_none (by decide) (by decide)
  simp only [chunkText, defaultChunkOptions, h1]
  decide

theorem chunkText_abc_eval :
    chunkText (str "A. B. C.") defaultChunkOptions = [str "A. B. C."] := by
  have h1 : splitOnSep (str "\n\n") (str "A. B. C.") = [str "A. B. C."] := by
    rw [splitOnSep, if_neg (by decide)]
    exact splitGo_of_none (by decide) (by decide)
  simp only [chunkText, defaultChunkOptions, h1]
  decide

theorem chunkText_empty_eval : chunkText [] defaultChunkOptions = [] := by
  have h1 : splitOnSep (str "\n\n") [] = [[]] := by
    rw [splitOnSep, if_neg (by decide)]
    exact splitGo_of_none (by decide) (by decide)
  simp only [chunkText, defaultChunkOptions, h1]
  decide

/-- C8 counterexample: the whitespace-only input `" "` has length `1 ≤
1000`, yet `chunkText` returns no chunks rather than one chunk equal to
the trimmed input (`[""]`): the trimmed chunk is dropped by the final
non-empty filter. -/
theorem C8_cex_whitespace_input :
    (str " ").length ≤ 1000 ∧
    chunkText (str " ") defaultChunkOptions ≠ [strTrim (str " ")] ∧
    (chunkText (str " ") defaultChunkOptions).length ≠ 1 := by
  refine ⟨by decide, ?_, ?_⟩ <;> rw [chunkText_space_eval] <;> decide

/-- C8 (amended): the empty input yields no chunks; any input whose
length does not exceed the configured size yields exactly one chunk equal
to the trimmed input, unless the input trims to the empty string, in
which case it also yields no chunks; in particular chunking `"A. B. C."`
at size 1000 yields the single chunk `"A. B. C."`. -/
theorem C8_chunkText_small_input :
    chunkText [] defaultChunkOptions = [] ∧
    (∀ (text : Str) (size o : Nat), text.length ≤ size →
      chunkText text ⟨size, o, str "\n\n"⟩ =
        if (strTrim text).isEmpty then [] else [strTrim text]) ∧
    chunkText (str "A. B. C.") defaultChunkOptions = [str "A. B. C."] :=
  ⟨chunkText_empty_eval,
   fun text size o h => chunkText_small text size o (str "\n\n") (by decide) (by decide) h,
   chunkText_abc_eval⟩

/-- Witness for C8: a concrete small input, with the size hypothesis
discharged by computation. -/
theorem C8_chunkText_small_input_witness :
    chunkText (str "hi") ⟨1000, 200, str "\n\n"⟩ =
      if (strTrim (str "hi")).isEmpty then [] else [strTrim (str "hi")] :=
  C8_chunkText_small_input.2.1 (str "hi") 1000 200 (by decide)

/-- C9: `chunkOverlap` is accepted in the chunking options but never
read again, so two option sets differing only in the overlap value
produce identical chunks for every text. -/
theorem C9_chunkOverlap_unused (text : Str) (size o₁ o₂ : Nat) (sep : Str) :
    chunkText text ⟨size, o₁, sep⟩ = chunkText text ⟨size, o₂, sep⟩ := rfl

/-! ### Similarity engine (`cosineSimilarity` / `vectorSearch`,
mcp-server/src/core/vector-search.js) -/

/-- `dotProduct` accumulated by the loop of `cosineSimilarity`. -/
def dotProductOf (a b : List ℝ) : ℝ := (List.zipWith (fun x y => x * y) a b).sum

/-- `Math.sqrt(norm)` of the accumulated sum of squares. -/
noncomputable def normOf (a : List ℝ) : ℝ := Real.sqrt ((a.map (fun x => x * x)).sum)

open Classical in
/-- `cosineSimilarity(a, b)`: throws on a length mismatch, returns 0 when
either norm is zero, otherwise the normalized dot product. -/
noncomputable def cosineSimilarity (a b : List ℝ) : Except Str ℝ :=
  if a.length ≠ b.length then .error (str "Vectors must have the same length")
  else if normOf a = 0 ∨ normOf b = 0 then .ok 0
  else .ok (dotProductOf a b / (normOf a * normOf b))

open Classical in
/-- The similarity value produced for equal-length vectors. -/
noncomputable def simValue (a b : List ℝ) : ℝ :=
  if normOf a = 0 ∨ normOf b = 0 then 0
  else dotProductOf a b / (normOf a * normOf b)

theorem cosineSimilarity_ok {a b : List ℝ} (h : a.length = b.length) :
    cosineSimilarity a b = .ok (simValue a b) := by
  rw [cosineSimilarity, if_neg (by simp [h]), simValue]
  by_cases hz : normOf a = 0 ∨ normOf b = 0
  · rw [if_pos hz, if_pos hz]
  · rw [if_neg hz, if_neg hz]

/-- Metadata fields of an indexed Discord message chunk (any of which may
be absent on a given record). -/
structure DiscordMeta where
  text : Str
  server_id : Option Str
  channel_id : Option Str
  author : Option Str
  date : Option Str
  time : Option Str
  message_id : Option Str

/-- A record of a vector collection: id, embedding and metadata. -/
structure VectorDoc where
  id : Str
  embedding : List ℝ
  metadata : DiscordMeta

/-- A document annotated with its similarity score
(`{...doc, similarity}`). -/
structure RankedDoc extends VectorDoc where
  similarity : ℝ

/-- Annotate every document with its cosine similarity to the query; the
first length mismatch aborts the whole map with the thrown error. -/
noncomputable def annotateDocs (q : List ℝ) : List VectorDoc → Except Str (List RankedDoc)
  | [] => .ok []
  | d :: ds =>
    match cosineSimilarity q d.embedding with
    | .error e => .error e
    | .ok s =>
      match annotateDocs q ds with
      | .error e => .error e
      | .ok rest => .ok ({ toVectorDoc := d, similarity := s } :: rest)

/-- The comparator `(a, b) => b.similarity - a.similarity`: `a` is placed
before `b` when `b`'s similarity does not exceed `a`'s. -/
def simDesc (x y : RankedDoc) : Prop := y.similarity ≤ x.similarity

noncomputable instance : DecidableRel simDesc := fun x y => Real.decidableLE _ _

instance : IsTotal RankedDoc simDesc := ⟨fun x y => le_total y.similarity x.similarity⟩

instance : IsTrans RankedDoc simDesc := ⟨fun _ _ _ h1 h2 => le_trans h2 h1⟩

/-- `vectorSearch(queryVector, documents, limit)`: annotate with
similarities, sort descending (stably) and truncate to `limit`. -/
noncomputable def vectorSearch (queryVector : List ℝ) (documents : List VectorDoc)
    (limit : Nat) : Except Str (List RankedDoc) :=
  match annotateDocs queryVector documents with
  | .error e => .error e
  | .ok results => .ok ((results.insertionSort simDesc).take limit)

theorem annotateDocs_ok {q : List ℝ} {docs : List VectorDoc}
    (h : ∀ d ∈ docs, d.embedding.length = q.length) :
    annotateDocs q docs =
      .ok (docs.map (fun d => { toVectorDoc := d, similarity := simValue q d.embedding })) := by
  induction docs with
  | nil => rfl
  | cons d ds ih =>
    have hd : d.embedding.length = q.length := h d (by simp)
    have hds : ∀ x ∈ ds, x.embedding.length = q.length := fun x hx => h x (by simp [hx])
    simp only [annotateDocs, cosineSimilarity_ok hd.symm, ih hds, List.map_cons]

/-- C1: for a query vector and documents of matching embedding length,
`vectorSearch` succeeds, returns at most `limit` results whose scores are
non-increasing, and these results are the top-`limit` records: the prefix
of a similarity-sorted permutation of all annotated records. -/
theorem C1_vectorSearch_topk (q : List ℝ) (docs : List VectorDoc) (limit : Nat)
    (h : ∀ d ∈ docs, d.embedding.length = q.length) :
    ∃ res, vectorSearch q docs limit = .ok res ∧
      res.length ≤ limit ∧
      List.Sorted simDesc res ∧
      ∃ full : List RankedDoc,
        full.Perm (docs.map (fun d => { toVectorDoc := d, similarity := simValue q d.embedding })) ∧
        List.Sorted simDesc full ∧ res = full.take limit := by
  have hann := annotateDocs_ok h
  set ann := docs.map
    (fun d => ({ toVectorDoc := d, similarity := simValue q d.embedding } : RankedDoc)) with hanneq
  refine ⟨(ann.insertionSort simDesc).take limit, ?_, ?_, ?_, ?_⟩
  · rw [vectorSearch, hann]
  · exact List.length_take_le limit _
  · exact List.Pairwise.sublist (List.take_sublist _ _) (List.sorted_insertionSort simDesc ann)
  · exact ⟨ann.insertionSort simDesc, List.perm_insertionSort simDesc ann,
      List.sorted_insertionSort simDesc ann, rfl⟩

/-- Witness for C1: the spec's own example collection with embeddings
`[1,0]`, `[0,1]`, queried with `[1,0]` and limit 2. -/
theorem C1_vectorSearch_topk_witness :
    ∃ res, vectorSearch [(1:ℝ), 0]
        [{ id := str "record1", embedding := [(1:ℝ), 0],
           metadata := ⟨[], none, none, none, none, none, none⟩ },
         { id := str "record2", embedding := [(0:ℝ), 1],
           metadata := ⟨[], none, none, none, none, none, none⟩ }] 2 = .ok res ∧
      res.length ≤ 2 ∧
      List.Sorted simDesc res ∧
      ∃ full : List RankedDoc,
        full.Perm ([{ id := str "record1", embedding := [(1:ℝ), 0],
                      metadata := ⟨[], none, none, none, none, none, none⟩ },
                    { id := str "record2", embedding := [(0:ℝ), 1],
                      metadata := ⟨[], none, none, none, none, none, none⟩ }].map
          (fun d => { toVectorDoc := d, similarity := simValue [(1:ℝ), 0] d.embedding })) ∧
        List.Sorted simDesc full ∧ res = full.take 2 := by
  refine C1_vectorSearch_topk [(1:ℝ), 0] _ 2 ?_
  intro d hd
  rcases List.mem_cons.mp hd with rfl | hd2
  · rfl
  · rcases List.mem_cons.mp hd2 with rfl | hd3
    · rfl
    · exact absurd hd3 (List.not_mem_nil d)

/-- C2: `cosineSimilarity` throws exactly on a vector length mismatch,
and consequently `vectorSearch` succeeds exactly when every document
embedding has the query's length. -/
theorem C2_length_mismatch_error :
    (∀ a b : List ℝ, (∃ e, cosineSimilarity a b = .error e) ↔ a.length ≠ b.length) ∧
    (∀ (q : List ℝ) (docs : List VectorDoc) (limit : Nat),
      (∃ v, vectorSearch q docs limit = .ok v) ↔
        ∀ d ∈ docs, d.embedding.length = q.length) := by
  constructor
  · intro a b
    constructor
    · rintro ⟨e, he⟩
      by_contra hlen
      rw [cosineSimilarity_ok hlen] at he
      exact Except.noConfusion he
    · intro hlen
      exact ⟨_, by rw [cosineSimilarity, if_pos hlen]⟩
  · intro q docs limit
    constructor
    · rintro ⟨v, hv⟩ d hd
      by_contra hlen
      -- an offending document makes `annotateDocs` (and the search) throw
      have herr : ∃ e, annotateDocs q docs = .error e := by
        clear hv
        induction docs with
        | nil => exact absurd hd (List.not_mem_nil d)
        | cons d0 ds ih =>
          rcases List.mem_cons.mp hd with rfl | hd2
          · have he : cosineSimilarity q d.embedding
                = .error (str "Vectors must have the same length") := by
              rw [cosineSimilarity, if_pos (fun hq => hlen hq.symm)]
            exact ⟨str "Vectors must have the same length", by simp only [annotateDocs, he]⟩
          · obtain ⟨e, he⟩ := ih hd2
            rcases hcs : cosineSimilarity q d0.embedding with e0 | s0
            · exact ⟨e0, by simp only [annotateDocs, hcs]⟩
            · exact ⟨e, by simp only [annotateDocs, hcs, he]⟩
      obtain ⟨e, he⟩ := herr
      rw [vectorSearch] at hv
      simp only [he] at hv
      exact Except.noConfusion hv
    · intro h
      exact ⟨_, by rw [vectorSearch, annotateDocs_ok h]⟩

theorem sumSq_nonneg (a : List ℝ) : 0 ≤ (a.map (fun x => x * x)).sum := by
  induction a with
  | nil => simp
  | cons x xs ih =>
    simp only [List.map_cons, List.sum_cons]
    have := mul_self_nonneg x
    linarith

/-- C3: for equal-length vectors, if either vector is identically zero
(zero magnitude) the similarity is exactly 0 through the guard, and
whenever both norms are non-zero the divisor of the similarity quotient
is non-zero: the division is guarded for all equal-length inputs. -/
theorem C3_zero_magnitude_guard (a b : List ℝ) (h : a.length = b.length) :
    ((∀ x ∈ a, x = 0) ∨ (∀ x ∈ b, x = 0) → cosineSimilarity a b = .ok 0) ∧
    (normOf a ≠ 0 → normOf b ≠ 0 →
      normOf a * normOf b ≠ 0 ∧
      cosineSimilarity a b = .ok (dotProductOf a b / (normOf a * normOf b))) := by
  constructor
  · intro hz
    have hnorm : normOf a = 0 ∨ normOf b = 0 := by
      rcases hz with hz | hz
      · left
        rw [normOf]
        have : (a.map (fun x => x * x)).sum = 0 := by
          apply List.sum_eq_zero
          intro y hy
          obtain ⟨x, hx, rfl⟩ := List.mem_map.mp hy
          rw [hz x hx, mul_zero]
        rw [this, Real.sqrt_zero]
      · right
        rw [normOf]
        have : (b.map (fun x => x * x)).sum = 0 := by
          apply List.sum_eq_zero
          intro y hy
          obtain ⟨x, hx, rfl⟩ := List.mem_map.mp hy
          rw [hz x hx, mul_zero]
        rw [this, Real.sqrt_zero]
    rw [cosineSimilarity, if_neg (by simp [h]), if_pos hnorm]
  · intro ha hb
    refine ⟨mul_ne_zero ha hb, ?_⟩
    rw [cosineSimilarity, if_neg (by simp [h]), if_neg (by tauto)]

/-- Witness for C3: the zero vector `[0]` against `[3]` scores exactly 0,
and the norm product for `[1]`, `[1]` is non-zero. -/
theorem C3_zero_magnitude_guard_witness :
    cosineSimilarity [(0:ℝ)] [3] = .ok 0 ∧
    normOf [(1:ℝ)] * normOf [(1:ℝ)] ≠ 0 :=
  ⟨(C3_zero_magnitude_guard [(0:ℝ)] [3] rfl).1 (Or.inl (by simp)),
   ((C3_zero_magnitude_guard [(1:ℝ)] [1] rfl).2
     (by simp [normOf]) (by simp [normOf])).1⟩

/-! ### Discord search adapter (src tools/search/discord.js) -/

/-- `query.toLowerCase().split(/\s+/)`: split on maximal whitespace runs;
leading or trailing whitespace contributes an empty token, as in
JavaScript.  The `fuel` argument only drives structural recursion: every
step consumes at least one character, so `s.length` fuel always
suffices and the fuel-exhaustion clause is unreachable. -/
def splitWsGo (fuel : Nat) (cur : Str) (s : Str) : List Str :=
  match fuel, s with
  | _, [] => [cur.reverse]
  | 0, _ :: _ => [cur.reverse]
  | fuel + 1, c :: rest =>
    if isWs c then cur.reverse :: splitWsGo fuel [] (rest.dropWhile isWs)
    else splitWsGo fuel (c :: cur) rest

def splitWs (s : Str) : List Str := splitWsGo s.length [] s

/-- Whether one character of a keyword pattern matches one text
character: in the modelled regex fragment `.` matches anything but a
line feed and every other character is literal. -/
def patCharMatches (p c : Char) : Bool :=
  if p = '.' then c ≠ '\n' else p = c

/-- The pattern matches at the start of the text. -/
def patMatchesAt : Str → Str → Bool
  | [], _ => true
  | _ :: _, [] => false
  | p :: ps, c :: cs => patCharMatches p c && patMatchesAt ps cs

/-- Scan for `(text.match(new RegExp(keyword, 'g')) || []).length`:
non-overlapping, left-to-right matches; a zero-length match advances by
one position.  Each step consumes at least one character, so `s.length`
fuel always suffices and the fuel-exhaustion clause is unreachable. -/
def countMatchesGo (pat : Str) (fuel : Nat) (s : Str) : Nat :=
  match fuel, s with
  | _, [] => if patMatchesAt pat [] then 1 else 0
  | 0, _ :: _ => 0
  | fuel + 1, c :: rest =>
    if patMatchesAt pat (c :: rest) then
      if pat.isEmpty then 1 + countMatchesGo pat fuel rest
      else 1 + countMatchesGo pat fuel (rest.drop (pat.length - 1))
    else countMatchesGo pat fuel rest

/-- The number of regex matches of the keyword in the text. -/
def countMatches (pat : Str) (s : Str) : Nat := countMatchesGo pat s.length s

/-- Plain (literal) occurrence count of a needle in a haystack,
non-overlapping and left to right — the reading of "occurrence count"
used by the claim (same scan as `countMatchesGo`, every pattern
character literal). -/
def occCountGo (needle : Str) (fuel : Nat) (s : Str) : Nat :=
  match fuel, s with
  | _, [] => if strHasPre needle [] then 1 else 0
  | 0, _ :: _ => 0
  | fuel + 1, c :: rest =>
    if strHasPre needle (c :: rest) then
      if needle.isEmpty then 1 + occCountGo needle fuel rest
      else 1 + occCountGo needle fuel (rest.drop (needle.length - 1))
    else occCountGo needle fuel rest

/-- The literal occurrence count of a needle in a haystack. -/
def occCount (needle : Str) (s : Str) : Nat := occCountGo needle s.length s

/-- Regex metacharacters of JavaScript patterns. -/
def regexMeta (c : Char) : Bool :=
  c = '.' || c = '\\' || c = '^' || c = '$' || c = '*' || c = '+' || c = '?' ||
  c = '(' || c = ')' || c = '[' || c = ']' || c = '\x7b' || c = '\x7d' || c = '|'

theorem patMatchesAt_plain {pat : Str} (h : ∀ c ∈ pat, regexMeta c = false) :
    ∀ s : Str, patMatchesAt pat s = strHasPre pat s := by
  induction pat with
  | nil => intro s; rfl
  | cons p ps ih =>
    intro s
    cases s with
    | nil => rfl
    | cons c cs =>
      have hp : regexMeta p = false := h p (by simp)
      have hdot : p ≠ '.' := by
        intro hc
        rw [hc] at hp
        simp [regexMeta] at hp
      have hps : ∀ c ∈ ps, regexMeta c = false := fun d hd => h d (by simp [hd])
      simp only [patMatchesAt, strHasPre, patCharMatches, if_neg hdot, ih hps]

theorem countMatchesGo_plain {pat : Str} (h : ∀ c ∈ pat, regexMeta c = false) :
    ∀ (fuel : Nat) (s : Str), countMatchesGo pat fuel s = occCountGo pat fuel s := by
  intro fuel
  induction fuel with
  | zero =>
    intro s
    cases s with
    | nil => rw [countMatchesGo, occCountGo, patMatchesAt_plain h]
    | cons c rest => rfl
  | succ n ih =>
    intro s
    cases s with
    | nil => rw [countMatchesGo, occCountGo, patMatchesAt_plain h]
    | cons c rest =>
      rw [countMatchesGo, occCountGo, patMatchesAt_plain h]
      simp only [ih]

theorem countMatches_plain {pat : Str} (h : ∀ c ∈ pat, regexMeta c = false) (s : Str) :
    countMatches pat s = occCount pat s :=
  countMatchesGo_plain h s.length s

/-- Parameters of `discordSemanticSearch` (optional filters are `none`
when not supplied; the source default for `limit` is 20). -/
structure DiscordParams where
  query : Str
  server_id : Option Str
  channel_id : Option Str
  author : Option Str
  start_date : Option Str
  end_date : Option Str
  limit : Nat

/-- One semantic search result (projection of a ranked record's
metadata plus its score). -/
structure SemResult where
  text : Str
  score : ℝ
  similarity : ℝ
  server_id : Option Str
  channel_id : Option Str
  author : Option Str
  date : Option Str
  time : Option Str
  message_id : Option Str

/-- The echoed filters of the response (unset filters shown as "all"). -/
structure FiltersEcho where
  server_id : Str
  channel_id : Str
  author : Str
  date_range : Str

/-- The response envelope of `discordSemanticSearch`. -/
structure SemResponse where
  query : Str
  total_results : Nat
  results : List SemResult
  search_type : Str
  filters : FiltersEcho

/-- `metadata.date < bound` under JavaScript semantics: comparing
`undefined` with a string is false. -/
def jsDateLt : Option Str → Str → Bool
  | none, _ => false
  | some d, s => strLt d s

/-- `metadata.date > bound` under JavaScript semantics. -/
def jsDateGt : Option Str → Str → Bool
  | none, _ => false
  | some d, s => strLt s d

/-- `start_date && metadata.date < start_date`. -/
def startExcludes (startD : Option Str) (d : Option Str) : Bool :=
  truthy startD && jsDateLt d (startD.getD [])

/-- `end_date && metadata.date > end_date`. -/
def endExcludes (endD : Option Str) (d : Option Str) : Bool :=
  truthy endD && jsDateGt d (endD.getD [])

/-- `param && metadata.field !== param` for the equality filters. -/
def eqFilterExcludes (param field : Option Str) : Bool :=
  truthy param && decide (field ≠ param)

/-- The conjunction of all `continue` checks of the result loop of
`discordSemanticSearch`. -/
def keepDoc (p : DiscordParams) (m : DiscordMeta) : Bool :=
  !eqFilterExcludes p.server_id m.server_id &&
  !eqFilterExcludes p.channel_id m.channel_id &&
  !eqFilterExcludes p.author m.author &&
  !startExcludes p.start_date m.date &&
  !endExcludes p.end_date m.date

/-- The projection pushed for every surviving result. -/
def toSemResult (r : RankedDoc) : SemResult :=
  { text := r.metadata.text, score := r.similarity, similarity := r.similarity,
    server_id := r.metadata.server_id, channel_id := r.metadata.channel_id,
    author := r.metadata.author, date := r.metadata.date, time := r.metadata.time,
    message_id := r.metadata.message_id }

/-- The result loop: push every result passing the filters, stopping once
`limit` results have been collected. -/
def collectFiltered (keep : DiscordMeta → Bool) (limit : Nat) : List RankedDoc → List SemResult
  | [] => []
  | r :: rest =>
    if keep r.metadata then
      toSemResult r :: (if limit ≤ 1 then [] else collectFiltered keep (limit - 1) rest)
    else collectFiltered keep limit rest

/-- `value || 'all'` for the filters echo. -/
def orAll (x : Option Str) : Str := if truthy x then x.getD [] else str "all"

/-- `start_date && end_date ? start_date + " to " + end_date : 'all'`. -/
def dateRangeEcho (s e : Option Str) : Str :=
  if truthy s && truthy e then s.getD [] ++ str " to " ++ e.getD [] else str "all"

/-- `discordSemanticSearch(params)`: embed the query (via the external
embedding provider `embed`), rank the cached collection at twice the
limit, filter, truncate and echo the filters. -/
noncomputable def discordSemanticSearch (embed : Str → List ℝ) (docs : List VectorDoc)
    (p : DiscordParams) : Except Str SemResponse :=
  if p.query.isEmpty then .error (str "query is required")
  else
    match vectorSearch (embed p.query) docs (p.limit * 2) with
    | .error e => .error e
    | .ok searchResults =>
      let filteredResults := collectFiltered (keepDoc p) p.limit searchResults
      .ok { query := p.query, total_results := filteredResults.length,
            results := filteredResults, search_type := str "semantic",
            filters := { server_id := orAll p.server_id, channel_id := orAll p.channel_id,
                         author := orAll p.author,
                         date_range := dateRangeEcho p.start_date p.end_date } }

/-- Parameters of `discordHybridSearch` (`semantic_weight` defaults to
0.7 in the source). -/
structure HybridParams extends DiscordParams where
  semantic_weight : ℝ

/-- A hybrid result: `{...result, keyword_score, hybrid_score}`. -/
structure HybResult extends SemResult where
  keyword_score : ℝ
  hybrid_score : ℝ

/-- The response envelope of `discordHybridSearch`. -/
structure HybResponse where
  query : Str
  total_results : Nat
  results : List HybResult
  search_type : Str
  weight_semantic : ℝ
  weight_keyword : ℝ
  filters : FiltersEcho

/-- The comparator `(a, b) => b.hybrid_score - a.hybrid_score`. -/
def hybDesc (x y : HybResult) : Prop := y.hybrid_score ≤ x.hybrid_score

noncomputable instance : DecidableRel hybDesc := fun x y => Real.decidableLE _ _

instance : IsTotal HybResult hybDesc := ⟨fun x y => le_total y.hybrid_score x.hybrid_score⟩

instance : IsTrans HybResult hybDesc := ⟨fun _ _ _ h1 h2 => le_trans h2 h1⟩

/-- `keywords.reduce((score, keyword) => score + matches, 0) /
keywords.length`. -/
noncomputable def keywordRawScore (keywords : List Str) (textLower : Str) : ℝ :=
  (keywords.foldl (fun acc k => acc + (countMatches k textLower : ℝ)) 0) /
    (keywords.length : ℝ)

/-- Annotate one semantic result with its keyword and blended scores. -/
noncomputable def annotateHybrid (keywords : List Str) (w : ℝ) (r : SemResult) : HybResult :=
  let textLower := lowerStr r.text
  let keywordScore := keywordRawScore keywords textLower
  let normalizedKeywordScore := min (keywordScore / 5) 1
  { toSemResult := r,
    keyword_score := normalizedKeywordScore,
    hybrid_score := r.similarity * w + normalizedKeywordScore * (1 - w) }

/-- `discordHybridSearch(params)`: semantic search at twice the limit,
keyword scoring, blended re-sort, truncation to `limit`. -/
noncomputable def discordHybridSearch (embed : Str → List ℝ) (docs : List VectorDoc)
    (p : HybridParams) : Except Str HybResponse :=
  if p.query.isEmpty then .error (str "query is required")
  else
    match discordSemanticSearch embed docs { p.toDiscordParams with limit := p.limit * 2 } with
    | .error e => .error e
    | .ok semanticResults =>
      let keywords := splitWs (lowerStr p.query)
      let hybridResults := semanticResults.results.map (annotateHybrid keywords p.semantic_weight)
      let sorted := hybridResults.insertionSort hybDesc
      .ok { query := p.query, total_results := min sorted.length p.limit,
            results := sorted.take p.limit, search_type := str "hybrid",
            weight_semantic := p.semantic_weight,
            weight_keyword := 1 - p.semantic_weight,
            filters := { server_id := orAll p.server_id, channel_id := orAll p.channel_id,
                         author := orAll p.author,
                         date_range := dateRangeEcho p.start_date p.end_date } }

/-! ### Date-range filtering (`filterByDateRange`, vector-search.js) -/

/-- The predicate of `filterByDateRange`: records without a (truthy) date
are kept; otherwise the date must fall inside the supplied bounds. -/
def dateInRange (startDate endDate : Option Str) (date : Option Str) : Bool :=
  if truthy date = false then true
  else if truthy startDate && jsDateLt date (startDate.getD []) then false
  else if truthy endDate && jsDateGt date (endDate.getD []) then false
  else true

/-- `filterByDateRange(results, startDate, endDate)`. -/
def filterByDateRange (results : List RankedDoc) (startDate endDate : Option Str) :
    List RankedDoc :=
  results.filter (fun r => dateInRange startDate endDate r.metadata.date)

/-- C10: a record whose metadata has no date field is retained by
date-range filtering for every supplied bound: by the standalone
`filterByDateRange`, and by the inline start/end date checks of the
per-source search, whose keep predicate is insensitive to the date
bounds on dateless records. -/
theorem C10_dateless_records_kept (startDate endDate : Option Str) :
    (∀ (results : List RankedDoc) (r : RankedDoc), r ∈ results →
      r.metadata.date = none → r ∈ filterByDateRange results startDate endDate) ∧
    (∀ (p : DiscordParams) (m : DiscordMeta), m.date = none →
      startExcludes p.start_date m.date = false ∧
      endExcludes p.end_date m.date = false ∧
      keepDoc p m = keepDoc { p with start_date := startDate, end_date := endDate } m) := by
  constructor
  · intro results r hr hdate
    refine List.mem_filter.mpr ⟨hr, ?_⟩
    simp [dateInRange, hdate, truthy]
  · intro p m hdate
    refine ⟨?_, ?_, ?_⟩
    · simp [startExcludes, hdate, jsDateLt]
    · simp [endExcludes, hdate, jsDateGt]
    · simp [keepDoc, startExcludes, endExcludes, hdate, jsDateLt, jsDateGt]

/-- Witness for C10: a concrete dateless record survives a concrete date
range, and the start-date check is false on it. -/
theorem C10_dateless_records_kept_witness :
    (⟨⟨str "d1", [], ⟨[], none, none, none, none, none, none⟩⟩, 0⟩ : RankedDoc) ∈
      filterByDateRange [⟨⟨str "d1", [], ⟨[], none, none, none, none, none, none⟩⟩, 0⟩]
        (some (str "2024-01-01")) (some (str "2024-12-31")) ∧
    startExcludes (some (str "2024-01-01")) none = false :=
  ⟨(C10_dateless_records_kept (some (str "2024-01-01")) (some (str "2024-12-31"))).1
      [⟨⟨str "d1", [], ⟨[], none, none, none, none, none, none⟩⟩, 0⟩] _ (by simp) rfl,
   ((C10_dateless_records_kept (some (str "2024-01-01")) (some (str "2024-12-31"))).2
      ⟨str "q", none, none, none, some (str "2024-01-01"), some (str "2024-12-31"), 20⟩
      ⟨[], none, none, none, none, none, none⟩ rfl).1⟩

/-! ### Vector snapshot persistence (`saveVectorDb`, indexer.js) -/

/-- The sibling descriptor written next to the snapshot. -/
structure SnapshotMeta where
  indexed_at : Str
  total_vectors : Nat
  embedding_model : Str
  dimensions : Nat

/-- One observable filesystem operation of the persistence layer
(`JSON.stringify` is elided: writes carry the structured value). -/
inductive FsOp where
  | mkdirRec (path : Str)
  | writeVectors (path : Str) (vectors : List VectorDoc)
  | writeMeta (path : Str) (meta : SnapshotMeta)
  | rename (src dst : Str)

/-- `String.prototype.replace` with a string pattern: replace only the
first occurrence. -/
def replaceFirst (pat repl s : Str) : Str :=
  match findOcc pat s with
  | none => s
  | some i => s.take i ++ repl ++ s.drop (i + pat.length)

/-- `dirname(outputPath)`: everything before the final slash
(or `"."` when there is none). -/
def dirnameOf (s : Str) : Str :=
  if (s.contains '/') then ((s.reverse.dropWhile (fun c => c ≠ '/')).drop 1).reverse
  else str "."

/-- Filesystem effect trace of `saveVectorDb(vectors, outputPath)`:
ensure the directory exists, write the vectors file at the output path,
then write the sibling descriptor at the path obtained by substituting
`metadata.json` for `vectors.json`. -/
def saveVectorDbTrace (vectors : List VectorDoc) (outputPath : Str)
    (dirExists : Bool) (now : Str) : List FsOp :=
  (if dirExists then [] else [FsOp.mkdirRec (dirnameOf outputPath)]) ++
  [FsOp.writeVectors outputPath vectors,
   FsOp.writeMeta (replaceFirst (str "vectors.json") (str "metadata.json") outputPath)
     { indexed_at := now, total_vectors := vectors.length,
       embedding_model := str "Xenova/all-MiniLM-L6-v2", dimensions := 384 }]

/-- A trace replaces `target` atomically (write-temp-then-rename) when
the target path is never the destination of a direct write and is
instead renamed into place from a temporarily written file. -/
def atomicReplace (t : List FsOp) (target : Str) : Prop :=
  (∀ v, FsOp.writeVectors target v ∉ t) ∧
  (∃ tmp v, FsOp.writeVectors tmp v ∈ t ∧ FsOp.rename tmp target ∈ t)

/-- C7 counterexample: on a concrete save, the collection file is
written directly at its target path and no rename occurs, so the
write-temp-then-rename discipline claimed by the spec is absent. -/
theorem C7_cex_direct_write :
    ¬ atomicReplace (saveVectorDbTrace [] (str "db/vectors.json") true [])
      (str "db/vectors.json") := by
  rintro ⟨h1, -⟩
  exact h1 [] (by simp [saveVectorDbTrace])

/-- C7 (amended): `saveVectorDb` writes the collection file directly at
its final path and then writes the sibling descriptor, also directly; it
performs no rename and hence never provides atomic
write-temp-then-rename replacement, for any input. -/
theorem C7_saveVectorDb_writes_directly (vectors : List VectorDoc) (outputPath : Str)
    (dirExists : Bool) (now : Str) :
    FsOp.writeVectors outputPath vectors ∈ saveVectorDbTrace vectors outputPath dirExists now ∧
    FsOp.writeMeta (replaceFirst (str "vectors.json") (str "metadata.json") outputPath)
      { indexed_at := now, total_vectors := vectors.length,
        embedding_model := str "Xenova/all-MiniLM-L6-v2", dimensions := 384 } ∈
      saveVectorDbTrace vectors outputPath dirExists now ∧
    (∀ a b, FsOp.rename a b ∉ saveVectorDbTrace vectors outputPath dirExists now) ∧
    ¬ atomicReplace (saveVectorDbTrace vectors outputPath dirExists now) outputPath := by
  refine ⟨by simp [saveVectorDbTrace], by simp [saveVectorDbTrace], ?_, ?_⟩
  · intro a b hmem
    rcases List.mem_append.mp hmem with h | h
    · rcases dirExists with _ | _ <;> simp at h
    · simp at h
  · rintro ⟨h1, -⟩
    exact h1 vectors (by simp [saveVectorDbTrace])

/-! ### Aggregator (`unifiedSemanticSearch`, tools/search/unified.js) -/

/-- The parameters each per-source handler is invoked with
(`{ query, limit }`). -/
structure UnifiedCallParams where
  query : Str
  limit : Nat

/-- A merged result tagged with its originating source. -/
structure TaggedResult extends SemResult where
  source : Str

/-- `(result.results || []).map(r => ({...r, source}))`. -/
def tagResult (srcName : Str) (r : SemResult) : TaggedResult :=
  { toSemResult := r, source := srcName }

/-- The per-source error map (a key is present only for a failing
source). -/
structure SourceErrors where
  discord : Option Str
  docs : Option Str
  knowledge : Option Str

/-- The per-source contribution counts. -/
structure SourceCounts where
  discord : Nat
  docs : Nat
  knowledge : Nat

/-- Parameters of the unified search. -/
structure UnifiedParams where
  query : Str
  sources : List Str
  limit : Nat

/-- The response envelope of the unified search. -/
structure UnifiedResponse where
  query : Str
  total_results : Nat
  results : List TaggedResult
  search_type : Str
  sources_searched : List Str
  source_counts : SourceCounts
  errors : Option SourceErrors

/-- The merge comparator `(a, b) => b.similarity - a.similarity`. -/
def tagDesc (x y : TaggedResult) : Prop := y.similarity ≤ x.similarity

noncomputable instance : DecidableRel tagDesc := fun x y => Real.decidableLE _ _

instance : IsTotal TaggedResult tagDesc := ⟨fun x y => le_total y.similarity x.similarity⟩

instance : IsTrans TaggedResult tagDesc := ⟨fun _ _ _ h1 h2 => le_trans h2 h1⟩

/-- The settled outcome of one per-source search: the captured error or
the successful response (`none` when the source was not requested). -/
def settle (handler : UnifiedCallParams → Except Str SemResponse)
    (requested : Bool) (p : UnifiedCallParams) : Option (Except Str SemResponse) :=
  if requested then some (handler p) else none

/-- The tagged results contributed by one source (a failing or absent
source contributes the empty list). -/
def taggedOf (srcName : Str) : Option (Except Str SemResponse) → List TaggedResult
  | some (.ok r) => r.results.map (tagResult srcName)
  | _ => []

/-- `sourceResults[src]?.total_results || 0`. -/
def countOf : Option (Except Str SemResponse) → Nat
  | some (.ok r) => r.total_results
  | _ => 0

/-- `errors[src]`, set only when the source's promise was rejected. -/
def errOf : Option (Except Str SemResponse) → Option Str
  | some (.error e) => some e
  | _ => none

/-- `unifiedSemanticSearch(params)`: fan out to the requested sources,
capture each failure per source, concatenate the successful sources'
tagged results, re-sort globally by similarity and truncate. -/
noncomputable def unifiedSemanticSearch
    (discordHandler docsHandler knowledgeHandler : UnifiedCallParams → Except Str SemResponse)
    (p : UnifiedParams) : Except Str UnifiedResponse :=
  if p.query.isEmpty then .error (str "query is required")
  else
    let call : UnifiedCallParams := { query := p.query, limit := p.limit }
    let dRes := settle discordHandler (decide (str "discord" ∈ p.sources)) call
    let dcRes := settle docsHandler (decide (str "docs" ∈ p.sources)) call
    let kRes := settle knowledgeHandler (decide (str "knowledge" ∈ p.sources)) call
    let allResults := taggedOf (str "discord") dRes ++ taggedOf (str "docs") dcRes ++
      taggedOf (str "knowledge") kRes
    let topResults := (allResults.insertionSort tagDesc).take p.limit
    .ok { query := p.query, total_results := topResults.length, results := topResults,
          search_type := str "unified_semantic", sources_searched := p.sources,
          source_counts := { discord := countOf dRes, docs := countOf dcRes,
                             knowledge := countOf kRes },
          errors :=
            if (errOf dRes).isNone && (errOf dcRes).isNone && (errOf kRes).isNone then none
            else some { discord := errOf dRes, docs := errOf dcRes, knowledge := errOf kRes } }

/-- The settled outcome of one named source of a unified call: `none`
when the source was not requested, otherwise the captured success or
failure of its handler. -/
def settledOf (handler : UnifiedCallParams → Except Str SemResponse) (srcName : Str)
    (p : UnifiedParams) : Option (Except Str SemResponse) :=
  settle handler (decide (srcName ∈ p.sources)) { query := p.query, limit := p.limit }

/-- The merged candidate pool of a unified call: the concatenation, in
code order, of the three sources' tagged results (failing or unrequested
sources contribute the empty list). -/
def mergedPool (dH dcH kH : UnifiedCallParams → Except Str SemResponse)
    (p : UnifiedParams) : List TaggedResult :=
  taggedOf (str "discord") (settledOf dH (str "discord") p) ++
  taggedOf (str "docs") (settledOf dcH (str "docs") p) ++
  taggedOf (str "knowledge") (settledOf kH (str "knowledge") p)

theorem unifiedSemanticSearch_ok_eq
    (dH dcH kH : UnifiedCallParams → Except Str SemResponse) (p : UnifiedParams)
    (hq : p.query.isEmpty = false) :
    unifiedSemanticSearch dH dcH kH p = .ok
      { query := p.query,
        total_results := (((mergedPool dH dcH kH p).insertionSort tagDesc).take p.limit).length,
        results := ((mergedPool dH dcH kH p).insertionSort tagDesc).take p.limit,
        search_type := str "unified_semantic", sources_searched := p.sources,
        source_counts := { discord := countOf (settledOf dH (str "discord") p),
                           docs := countOf (settledOf dcH (str "docs") p),
                           knowledge := countOf (settledOf kH (str "knowledge") p) },
        errors :=
          if (errOf (settledOf dH (str "discord") p)).isNone &&
             (errOf (settledOf dcH (str "docs") p)).isNone &&
             (errOf (settledOf kH (str "knowledge") p)).isNone then none
          else some { discord := errOf (settledOf dH (str "discord") p),
                      docs := errOf (settledOf dcH (str "docs") p),
                      knowledge := errOf (settledOf kH (str "knowledge") p) } } := by
  rw [unifiedSemanticSearch, if_neg (by simp [hq])]
  rfl

/-- C6: for every unified search (any handlers, any requested sources)
with a non-empty query, no exception propagates: the call returns a
structured response whose merged list is the sorted, truncated
concatenation of the sources' tagged results.  Whichever requested
source fails contributes nothing to the merge, appears in the errors map
keyed by name with its message, and reports count 0; whichever requested
source succeeds reports its count, and its ranked results are all still
returned whenever the merged pool fits within the limit. -/
theorem C6_partial_failure_tolerance
    (dH dcH kH : UnifiedCallParams → Except Str SemResponse) (p : UnifiedParams)
    (hq : p.query.isEmpty = false) :
    ∃ resp, unifiedSemanticSearch dH dcH kH p = .ok resp ∧
      resp.results = ((mergedPool dH dcH kH p).insertionSort tagDesc).take p.limit ∧
      (∀ e, str "discord" ∈ p.sources → dH { query := p.query, limit := p.limit } = .error e →
        taggedOf (str "discord") (settledOf dH (str "discord") p) = [] ∧
        (∃ errs, resp.errors = some errs ∧ errs.discord = some e) ∧
        resp.source_counts.discord = 0) ∧
      (∀ e, str "docs" ∈ p.sources → dcH { query := p.query, limit := p.limit } = .error e →
        taggedOf (str "docs") (settledOf dcH (str "docs") p) = [] ∧
        (∃ errs, resp.errors = some errs ∧ errs.docs = some e) ∧
        resp.source_counts.docs = 0) ∧
      (∀ e, str "knowledge" ∈ p.sources →
        kH { query := p.query, limit := p.limit } = .error e →
        taggedOf (str "knowledge") (settledOf kH (str "knowledge") p) = [] ∧
        (∃ errs, resp.errors = some errs ∧ errs.knowledge = some e) ∧
        resp.source_counts.knowledge = 0) ∧
      (∀ R, str "discord" ∈ p.sources → dH { query := p.query, limit := p.limit } = .ok R →
        resp.source_counts.discord = R.total_results ∧
        ((mergedPool dH dcH kH p).length ≤ p.limit →
          ∀ r ∈ R.results, tagResult (str "discord") r ∈ resp.results)) ∧
      (∀ R, str "docs" ∈ p.sources → dcH { query := p.query, limit := p.limit } = .ok R →
        resp.source_counts.docs = R.total_results ∧
        ((mergedPool dH dcH kH p).length ≤ p.limit →
          ∀ r ∈ R.results, tagResult (str "docs") r ∈ resp.results)) ∧
      (∀ R, str "knowledge" ∈ p.sources →
        kH { query := p.query, limit := p.limit } = .ok R →
        resp.source_counts.knowledge = R.total_results ∧
        ((mergedPool dH dcH kH p).length ≤ p.limit →
          ∀ r ∈ R.results, tagResult (str "knowledge") r ∈ resp.results)) := by
  have hfit : ∀ (hfits : (mergedPool dH dcH kH p).length ≤ p.limit),
      ((mergedPool dH dcH kH p).insertionSort tagDesc).take p.limit
        = (mergedPool dH dcH kH p).insertionSort tagDesc := by
    intro hfits
    exact List.take_of_length_le (by rw [List.length_insertionSort]; exact hfits)
  refine ⟨_, unifiedSemanticSearch_ok_eq dH dcH kH p hq, rfl, ?_, ?_, ?_, ?_, ?_, ?_⟩
  · intro e hmem herr
    have hsd : settledOf dH (str "discord") p = some (.error e) := by
      simp [settledOf, settle, hmem, herr]
    refine ⟨by rw [hsd]; rfl, ?_, by rw [hsd]; rfl⟩
    simp only [hsd, errOf, Option.isNone_some, Bool.false_and, Bool.false_eq_true, if_false]
    exact ⟨_, rfl, rfl⟩
  · intro e hmem herr
    have hsd : settledOf dcH (str "docs") p = some (.error e) := by
      simp [settledOf, settle, hmem, herr]
    refine ⟨by rw [hsd]; rfl, ?_, by rw [hsd]; rfl⟩
    simp only [hsd, errOf, Option.isNone_some, Bool.and_false, Bool.false_and,
      Bool.false_eq_true, if_false]
    exact ⟨_, rfl, rfl⟩
  · intro e hmem herr
    have hsd : settledOf kH (str "knowledge") p = some (.error e) := by
      simp [settledOf, settle, hmem, herr]
    refine ⟨by rw [hsd]; rfl, ?_, by rw [hsd]; rfl⟩
    simp only [hsd, errOf, Option.isNone_some, Bool.and_false, Bool.false_and,
      Bool.false_eq_true, if_false]
    exact ⟨_, rfl, rfl⟩
  · intro R hmem hok
    have hsd : settledOf dH (str "discord") p = some (.ok R) := by
      simp [settledOf, settle, hmem, hok]
    refine ⟨by rw [hsd]; rfl, ?_⟩
    intro hfits r hr
    show tagResult (str "discord") r
      ∈ ((mergedPool dH dcH kH p).insertionSort tagDesc).take p.limit
    rw [hfit hfits, List.mem_insertionSort, mergedPool, hsd]
    exact List.mem_append.mpr (Or.inl (List.mem_append.mpr
      (Or.inl (List.mem_map_of_mem _ hr))))
  · intro R hmem hok
    have hsd : settledOf dcH (str "docs") p = some (.ok R) := by
      simp [settledOf, settle, hmem, hok]
    refine ⟨by rw [hsd]; rfl, ?_⟩
    intro hfits r hr
    show tagResult (str "docs") r
      ∈ ((mergedPool dH dcH kH p).insertionSort tagDesc).take p.limit
    rw [hfit hfits, List.mem_insertionSort, mergedPool, hsd]
    exact List.mem_append.mpr (Or.inl (List.mem_append.mpr
      (Or.inr (List.mem_map_of_mem _ hr))))
  · intro R hmem hok
    have hsd : settledOf kH (str "knowledge") p = some (.ok R) := by
      simp [settledOf, settle, hmem, hok]
    refine ⟨by rw [hsd]; rfl, ?_⟩
    intro hfits r hr
    show tagResult (str "knowledge") r
      ∈ ((mergedPool dH dcH kH p).insertionSort tagDesc).take p.limit
    rw [hfit hfits, List.mem_insertionSort, mergedPool, hsd]
    exact List.mem_append.mpr (Or.inr (List.mem_map_of_mem _ hr))

/-- The single docs result of the C6 witness. -/
def wSemResult : SemResult :=
  { text := str "hello", score := 0, similarity := 0, server_id := none,
    channel_id := none, author := none, date := none, time := none, message_id := none }

/-- Concrete single-result docs response used by the C6 witness. -/
def wSemResponse : SemResponse :=
  { query := str "q", total_results := 1, results := [wSemResult],
    search_type := str "semantic",
    filters := { server_id := str "all", channel_id := str "all", author := str "all",
                 date_range := str "all" } }

/-- Handler of a source whose snapshot is missing. -/
def wDiscordH : UnifiedCallParams → Except Str SemResponse :=
  fun _ => .error (str "Discord vector database not initialized")

/-- Handler of a healthy source. -/
def wDocsH : UnifiedCallParams → Except Str SemResponse := fun _ => .ok wSemResponse

/-- Handler of the source that is not requested. -/
def wKnowledgeH : UnifiedCallParams → Except Str SemResponse := fun _ => .error (str "unused")

/-- Concrete parameters of the C6 witness. -/
def wUnifiedParams : UnifiedParams :=
  { query := str "q", sources := [str "discord", str "docs"], limit := 20 }

/-- Witness for C6: a concrete aggregation over a failing discord source
and a healthy docs source, exercising both the failing-source and the
succeeding-source conjuncts of the theorem. -/
theorem C6_partial_failure_tolerance_witness :
    ∃ resp, unifiedSemanticSearch wDiscordH wDocsH wKnowledgeH wUnifiedParams = .ok resp ∧
      (∃ errs, resp.errors = some errs ∧
        errs.discord = some (str "Discord vector database not initialized")) ∧
      resp.source_counts.discord = 0 ∧
      resp.source_counts.docs = wSemResponse.total_results ∧
      tagResult (str "docs") wSemResult ∈ resp.results := by
  obtain ⟨resp, heq, hres, hdF, hdcF, hkF, hdS, hdcS, hkS⟩ :=
    C6_partial_failure_tolerance wDiscordH wDocsH wKnowledgeH wUnifiedParams (by decide)
  obtain ⟨htag, herrs, hcnt⟩ :=
    hdF (str "Discord vector database not initialized") (by decide) rfl
  obtain ⟨hcnt2, hmem⟩ := hdcS wSemResponse (by decide) rfl
  exact ⟨resp, heq, herrs, hcnt, hcnt2,
    hmem (by decide) wSemResult (List.mem_singleton.mpr rfl)⟩

/-! ### Hybrid search vs semantic search -/

theorem collectFiltered_trivial {keep : DiscordMeta → Bool} (hk : ∀ m, keep m = true) :
    ∀ (l : List RankedDoc) (limit : Nat), 1 ≤ limit →
      collectFiltered keep limit l = (l.take limit).map toSemResult := by
  intro l
  induction l with
  | nil => intro limit _; simp [collectFiltered]
  | cons r rest ih =>
    intro limit hlim
    rw [collectFiltered]
    simp only [hk r.metadata, if_true]
    by_cases h1 : limit ≤ 1
    · have : limit = 1 := le_antisymm h1 hlim
      subst this
      simp [List.take_succ_cons]
    · have h2 : 1 ≤ limit - 1 := by omega
      rw [if_neg h1, ih (limit - 1) h2]
      have h3 : limit = (limit - 1) + 1 := by omega
      rw [h3, List.take_succ_cons, List.map_cons]
      simp

theorem keepDoc_trivial {p : DiscordParams}
    (hs : truthy p.server_id = false) (hc : truthy p.channel_id = false)
    (ha : truthy p.author = false) (hsd : truthy p.start_date = false)
    (hed : truthy p.end_date = false) (m : DiscordMeta) : keepDoc p m = true := by
  simp [keepDoc, eqFilterExcludes, startExcludes, endExcludes, hs, hc, ha, hsd, hed]

/-- With no filters set, the semantic search is exactly: sort all
annotated records by similarity, take the limit, project. -/
theorem semanticSearch_trivial_filters (embed : Str → List ℝ) (docs : List VectorDoc)
    (p : DiscordParams) (hq : p.query.isEmpty = false)
    (hs : truthy p.server_id = false) (hc : truthy p.channel_id = false)
    (ha : truthy p.author = false) (hsd : truthy p.start_date = false)
    (hed : truthy p.end_date = false)
    (hlen : ∀ d ∈ docs, d.embedding.length = (embed p.query).length) :
    discordSemanticSearch embed docs p = .ok
      { query := p.query,
        total_results := ((((docs.map (fun d =>
          ({ toVectorDoc := d, similarity := simValue (embed p.query) d.embedding }
            : RankedDoc))).insertionSort simDesc).take p.limit).map toSemResult).length,
        results := (((docs.map (fun d =>
          ({ toVectorDoc := d, similarity := simValue (embed p.query) d.embedding }
            : RankedDoc))).insertionSort simDesc).take p.limit).map toSemResult,
        search_type := str "semantic",
        filters := { server_id := str "all", channel_id := str "all", author := str "all",
                     date_range := str "all" } } := by
  rw [discordSemanticSearch, if_neg (by simp [hq]), vectorSearch, annotateDocs_ok hlen]
  set S := (docs.map (fun d =>
    ({ toVectorDoc := d, similarity := simValue (embed p.query) d.embedding }
      : RankedDoc))).insertionSort simDesc with hS
  have hcollect : collectFiltered (keepDoc p) p.limit (S.take (p.limit * 2))
      = (S.take p.limit).map toSemResult := by
    rcases Nat.eq_zero_or_pos p.limit with h0 | hpos
    · rw [h0]
      simp [collectFiltered]
    · rw [collectFiltered_trivial (keepDoc_trivial hs hc ha hsd hed) _ _ hpos,
        List.take_take]
      have : min p.limit (p.limit * 2) = p.limit := by omega
      rw [this]
  simp only [hcollect, orAll, dateRangeEcho, hs, hc, ha, hsd, hed, Bool.false_and,
    Bool.and_false, if_false, Bool.false_eq_true]

theorem annotateHybrid_strip (keywords : List Str) (w : ℝ) (r : SemResult) :
    (annotateHybrid keywords w r).toSemResult = r := rfl

theorem annotateHybrid_weight_one_score (keywords : List Str) (r : SemResult) :
    (annotateHybrid keywords 1 r).hybrid_score = r.similarity := by
  simp [annotateHybrid]

/-- C5 (amended): with `semantic_weight = 1.0` and no filters supplied,
`discordHybridSearch` returns exactly the records of
`discordSemanticSearch` at the same limit, in the same order (the
keyword term contributes zero to every blended score, and the stable
re-sort of the already similarity-sorted candidates is the identity). -/
theorem C5_weight_one_no_filters (embed : Str → List ℝ) (docs : List VectorDoc)
    (p : HybridParams) (hw : p.semantic_weight = 1)
    (hs : truthy p.server_id = false) (hc : truthy p.channel_id = false)
    (ha : truthy p.author = false) (hsd : truthy p.start_date = false)
    (hed : truthy p.end_date = false)
    (hlen : ∀ d ∈ docs, d.embedding.length = (embed p.query).length) :
    (discordHybridSearch embed docs p).map (fun resp => resp.results.map HybResult.toSemResult)
      = (discordSemanticSearch embed docs p.toDiscordParams).map (fun resp => resp.results) := by
  by_cases hq : p.query.isEmpty = true
  · rw [discordHybridSearch, if_pos hq, discordSemanticSearch, if_pos hq]
    rfl
  · have hq' : p.query.isEmpty = false := by
      cases h : p.query.isEmpty
      · rfl
      · exact absurd h hq
    set S := (docs.map (fun d =>
      ({ toVectorDoc := d, similarity := simValue (embed p.query) d.embedding }
        : RankedDoc))).insertionSort simDesc with hS
    have hsem2 : discordSemanticSearch embed docs
        { p.toDiscordParams with limit := p.limit * 2 } = .ok
        { query := p.query,
          total_results := ((S.take (p.limit * 2)).map toSemResult).length,
          results := (S.take (p.limit * 2)).map toSemResult,
          search_type := str "semantic",
          filters := { server_id := str "all", channel_id := str "all", author := str "all",
                       date_range := str "all" } } := by
      rw [semanticSearch_trivial_filters embed docs
        { p.toDiscordParams with limit := p.limit * 2 } hq' hs hc ha hsd hed hlen]
    have hsem1 : discordSemanticSearch embed docs p.toDiscordParams = .ok
        { query := p.query,
          total_results := ((S.take p.limit).map toSemResult).length,
          results := (S.take p.limit).map toSemResult,
          search_type := str "semantic",
          filters := { server_id := str "all", channel_id := str "all", author := str "all",
                       date_range := str "all" } } := by
      rw [semanticSearch_trivial_filters embed docs p.toDiscordParams hq' hs hc ha hsd hed hlen]
    rw [discordHybridSearch, if_neg (by simp [hq']), hsem2, hsem1]
    dsimp only
    simp only [Except.map]
    set kw := splitWs (lowerStr p.query) with hkw
    set f := fun r : RankedDoc => annotateHybrid kw 1 (toSemResult r) with hf
    have hmapmap : ((S.take (p.limit * 2)).map toSemResult).map (annotateHybrid kw p.semantic_weight)
        = (S.take (p.limit * 2)).map f := by
      rw [List.map_map, hw, hf]
      rfl
    have hsorted2 : List.Sorted simDesc (S.take (p.limit * 2)) :=
      List.Pairwise.sublist (List.take_sublist _ _) (List.sorted_insertionSort simDesc _)
    have hsortedH : List.Sorted hybDesc ((S.take (p.limit * 2)).map f) := by
      refine List.Pairwise.map f ?_ hsorted2
      intro a b hab
      show (f b).hybrid_score ≤ (f a).hybrid_score
      rw [hf]
      simp only [annotateHybrid_weight_one_score]
      exact hab
    rw [hmapmap, List.Sorted.insertionSort_eq hsortedH]
    simp only [Except.ok.injEq]
    rw [← List.map_take, List.take_take]
    have hmin : min p.limit (p.limit * 2) = p.limit := by omega
    rw [hmin, List.map_map]
    exact List.map_congr_left fun x _ => rfl

theorem vectorSearch_ok_eq {q : List ℝ} {docs : List VectorDoc} {limit : Nat}
    (h : ∀ d ∈ docs, d.embedding.length = q.length) :
    vectorSearch q docs limit = .ok (((docs.map (fun d =>
      ({ toVectorDoc := d, similarity := simValue q d.embedding } : RankedDoc))).insertionSort
        simDesc).take limit) := by
  rw [vectorSearch, annotateDocs_ok h]

theorem normOf_single_one : normOf [(1:ℝ)] = 1 := by
  simp [normOf]

theorem simValue_single_one : simValue [(1:ℝ)] [1] = 1 := by
  rw [simValue, normOf_single_one, if_neg (by norm_num)]
  simp [dotProductOf]

/-- Embedding provider of the concrete hybrid-search scenarios: every
text is embedded as `[1]`. -/
def cEmbed : Str → List ℝ := fun _ => [1]

/-- Concrete records: two by author `x`, one by author `y`, all with the
same embedding (equal similarities keep the stable sort the identity). -/
def cD1 : VectorDoc := ⟨str "d1", [1], ⟨str "t", none, none, some (str "x"), none, none, none⟩⟩

def cD2 : VectorDoc := ⟨str "d2", [1], ⟨str "t", none, none, some (str "x"), none, none, none⟩⟩

def cD3 : VectorDoc := ⟨str "d3", [1], ⟨str "t", none, none, some (str "y"), none, none, none⟩⟩

def cDocs : List VectorDoc := [cD1, cD2, cD3]

/-- Semantic parameters: author filter `y`, limit 1. -/
def cSemP : DiscordParams := ⟨str "q", none, none, some (str "y"), none, none, 1⟩

/-- Hybrid parameters: the same call with `semantic_weight = 1`. -/
def cHybP : HybridParams := ⟨cSemP, 1⟩

theorem cDocs_len (qs : Str) : ∀ d ∈ cDocs, d.embedding.length = (cEmbed qs).length := by
  intro d hd
  rcases List.mem_cons.mp hd with rfl | hd2
  · rfl
  · rcases List.mem_cons.mp hd2 with rfl | hd3
    · rfl
    · rcases List.mem_cons.mp hd3 with rfl | hd4
      · rfl
      · exact absurd hd4 (List.not_mem_nil d)

theorem cDocs_map_eval (qs : Str) :
    cDocs.map (fun d => ({ toVectorDoc := d, similarity := simValue (cEmbed qs) d.embedding }
      : RankedDoc)) = [⟨cD1, 1⟩, ⟨cD2, 1⟩, ⟨cD3, 1⟩] := by
  simp only [cDocs, List.map_cons, List.map_nil]
  rw [show (cEmbed qs) = [(1:ℝ)] from rfl]
  rw [show cD1.embedding = [(1:ℝ)] from rfl, show cD2.embedding = [(1:ℝ)] from rfl,
    show cD3.embedding = [(1:ℝ)] from rfl, simValue_single_one]

theorem cDocs_sort_eval :
    ([⟨cD1, 1⟩, ⟨cD2, 1⟩, ⟨cD3, 1⟩] : List RankedDoc).insertionSort simDesc
      = [⟨cD1, 1⟩, ⟨cD2, 1⟩, ⟨cD3, 1⟩] :=
  List.Sorted.insertionSort_eq (by simp [List.Sorted, List.pairwise_cons, simDesc])

theorem cSem_eval : discordSemanticSearch cEmbed cDocs cSemP = .ok
    { query := str "q", total_results := 0, results := [], search_type := str "semantic",
      filters := { server_id := str "all", channel_id := str "all", author := str "y",
                   date_range := str "all" } } := by
  have hvs : vectorSearch (cEmbed cSemP.query) cDocs (cSemP.limit * 2)
      = .ok [⟨cD1, 1⟩, ⟨cD2, 1⟩] := by
    rw [vectorSearch_ok_eq (cDocs_len _), cDocs_map_eval, cDocs_sort_eval]
    rfl
  rw [discordSemanticSearch, if_neg (by decide), hvs]
  rfl

theorem cSem2_eval : discordSemanticSearch cEmbed cDocs
    { cHybP.toDiscordParams with limit := cHybP.limit * 2 } = .ok
    { query := str "q", total_results := 1, results := [toSemResult ⟨cD3, 1⟩],
      search_type := str "semantic",
      filters := { server_id := str "all", channel_id := str "all", author := str "y",
                   date_range := str "all" } } := by
  have hvs : vectorSearch
      (cEmbed ({ cHybP.toDiscordParams with limit := cHybP.limit * 2 } : DiscordParams).query)
      cDocs (({ cHybP.toDiscordParams with limit := cHybP.limit * 2 } : DiscordParams).limit * 2)
      = .ok [⟨cD1, 1⟩, ⟨cD2, 1⟩, ⟨cD3, 1⟩] := by
    rw [vectorSearch_ok_eq (cDocs_len _), cDocs_map_eval, cDocs_sort_eval]
    rfl
  rw [discordSemanticSearch, if_neg (by decide), hvs]
  rfl

theorem cHyb_eval : discordHybridSearch cEmbed cDocs cHybP = .ok
    { query := str "q", total_results := 1,
      results := [annotateHybrid (splitWs (lowerStr (str "q"))) 1 (toSemResult ⟨cD3, 1⟩)],
      search_type := str "hybrid", weight_semantic := 1, weight_keyword := 1 - 1,
      filters := { server_id := str "all", channel_id := str "all", author := str "y",
                   date_range := str "all" } } := by
  rw [discordHybridSearch, if_neg (by decide), cSem2_eval]
  rfl

/-- C5 counterexample: with an author filter that discards the two
highest-ranked candidates, `discordSemanticSearch` at limit 1 scans only
the top 2 candidates and returns nothing, while `discordHybridSearch`
with `semantic_weight = 1` scans the top 4 through its doubled inner
limit and returns one record — so hybrid at weight 1.0 does not return
the same results as semantic search at the same limit. -/
theorem C5_cex_filtered_candidate_pool :
    ∃ hresp sresp,
      discordHybridSearch cEmbed cDocs cHybP = .ok hresp ∧
      discordSemanticSearch cEmbed cDocs cSemP = .ok sresp ∧
      sresp.results = [] ∧
      hresp.results.length = 1 ∧
      hresp.results.map HybResult.toSemResult ≠ sresp.results := by
  refine ⟨_, _, cHyb_eval, cSem_eval, rfl, rfl, ?_⟩
  simp

/-- Witness for C5: a concrete no-filter call at weight 1. -/
theorem C5_weight_one_no_filters_witness :
    (discordHybridSearch cEmbed [cD1] ⟨⟨str "q", none, none, none, none, none, 5⟩, 1⟩).map
        (fun resp => resp.results.map HybResult.toSemResult)
      = (discordSemanticSearch cEmbed [cD1]
          (⟨⟨str "q", none, none, none, none, none, 5⟩, 1⟩ : HybridParams).toDiscordParams).map
        (fun resp => resp.results) :=
  C5_weight_one_no_filters cEmbed [cD1] ⟨⟨str "q", none, none, none, none, none, 5⟩, 1⟩
    rfl rfl rfl rfl rfl rfl
    (by
      intro d hd
      rcases List.mem_cons.mp hd with rfl | hd2
      · rfl
      · exact absurd hd2 (List.not_mem_nil d))

/-! ### Hybrid keyword scoring (C4) -/

/-- The keyword score as the claim states it: the sum over keywords of
the keyword's (literal) occurrence count in the lowercased candidate
text, divided by the number of keywords, divided by 5, capped at 1. -/
noncomputable def claimKeywordScore (keywords : List Str) (text : Str) : ℝ :=
  min (((keywords.map (fun k => (occCount k (lowerStr text) : ℝ))).sum /
    (keywords.length : ℝ)) / 5) 1

theorem foldl_add_map (f : Str → ℝ) (l : List Str) :
    ∀ a : ℝ, l.foldl (fun acc k => acc + f k) a = a + (l.map f).sum := by
  induction l with
  | nil => intro a; simp
  | cons x xs ih =>
    intro a
    simp only [List.foldl_cons, List.map_cons, List.sum_cons, ih]
    ring

/-- On keywords free of regex metacharacters, the source's regex-based
annotation computes exactly the claim's formulas. -/
theorem annotateHybrid_plain {keywords : List Str}
    (hplain : ∀ k ∈ keywords, ∀ c ∈ k, regexMeta c = false) (w : ℝ) (r : SemResult) :
    annotateHybrid keywords w r =
      { toSemResult := r,
        keyword_score := claimKeywordScore keywords r.text,
        hybrid_score := r.similarity * w + claimKeywordScore keywords r.text * (1 - w) } := by
  have hfold : (keywords.foldl (fun acc k => acc + (countMatches k (lowerStr r.text) : ℝ)) 0)
      = (keywords.map (fun k => (occCount k (lowerStr r.text) : ℝ))).sum := by
    rw [foldl_add_map, zero_add]
    congr 1
    refine List.map_congr_left fun k hk => ?_
    rw [countMatches_plain (hplain k hk)]
  simp only [annotateHybrid, keywordRawScore, claimKeywordScore, hfold]


/-- C4 (amended): for a hybrid search with a non-empty query whose
whitespace tokens contain no regex metacharacters, weight in `[0,1]` and
matching embedding lengths: every returned result's keyword score equals
the claim's formula (capped normalized mean occurrence count), its
blended score equals `similarity·w + keyword·(1−w)`, and the returned
results are exactly the semantic candidates (fetched at twice the limit)
re-annotated, stably re-sorted by blended score descending and truncated
to the limit. -/
theorem C4_hybrid_keyword_blend (embed : Str → List ℝ) (docs : List VectorDoc)
    (p : HybridParams) (hq : p.query.isEmpty = false)
    (hw0 : 0 ≤ p.semantic_weight) (hw1 : p.semantic_weight ≤ 1)
    (hplain : ∀ k ∈ splitWs (lowerStr p.query), ∀ c ∈ k, regexMeta c = false)
    (hlen : ∀ d ∈ docs, d.embedding.length = (embed p.query).length) :
    ∃ sem hyb,
      discordSemanticSearch embed docs { p.toDiscordParams with limit := p.limit * 2 }
        = .ok sem ∧
      discordHybridSearch embed docs p = .ok hyb ∧
      (∀ r ∈ hyb.results,
        r.keyword_score = claimKeywordScore (splitWs (lowerStr p.query)) r.text ∧
        r.hybrid_score = r.similarity * p.semantic_weight +
          r.keyword_score * (1 - p.semantic_weight)) ∧
      hyb.results = ((sem.results.map (fun r =>
        ({ toSemResult := r,
           keyword_score := claimKeywordScore (splitWs (lowerStr p.query)) r.text,
           hybrid_score := r.similarity * p.semantic_weight +
             claimKeywordScore (splitWs (lowerStr p.query)) r.text * (1 - p.semantic_weight) }
          : HybResult))).insertionSort hybDesc).take p.limit := by
  have hsem0 : discordSemanticSearch embed docs { p.toDiscordParams with limit := p.limit * 2 }
      = .ok { query := p.query,
              total_results := (collectFiltered
                (keepDoc { p.toDiscordParams with limit := p.limit * 2 })
                (p.limit * 2) ((((docs.map (fun d =>
                  ({ toVectorDoc := d, similarity := simValue (embed p.query) d.embedding }
                    : RankedDoc))).insertionSort simDesc).take (p.limit * 2 * 2)))).length,
              results := collectFiltered
                (keepDoc { p.toDiscordParams with limit := p.limit * 2 })
                (p.limit * 2) ((((docs.map (fun d =>
                  ({ toVectorDoc := d, similarity := simValue (embed p.query) d.embedding }
                    : RankedDoc))).insertionSort simDesc).take (p.limit * 2 * 2))),
              search_type := str "semantic",
              filters := { server_id := orAll p.server_id, channel_id := orAll p.channel_id,
                           author := orAll p.author,
                           date_range := dateRangeEcho p.start_date p.end_date } } := by
    rw [discordSemanticSearch, if_neg (by simp [hq]), vectorSearch_ok_eq hlen]
  obtain ⟨sem, hsem⟩ : ∃ sem,
      discordSemanticSearch embed docs { p.toDiscordParams with limit := p.limit * 2 }
        = .ok sem := ⟨_, hsem0⟩
  have hhyb : discordHybridSearch embed docs p = .ok
      { query := p.query,
        total_results := min ((sem.results.map
          (annotateHybrid (splitWs (lowerStr p.query)) p.semantic_weight)).insertionSort
            hybDesc).length p.limit,
        results := ((sem.results.map
          (annotateHybrid (splitWs (lowerStr p.query)) p.semantic_weight)).insertionSort
            hybDesc).take p.limit,
        search_type := str "hybrid",
        weight_semantic := p.semantic_weight,
        weight_keyword := 1 - p.semantic_weight,
        filters := { server_id := orAll p.server_id, channel_id := orAll p.channel_id,
                     author := orAll p.author,
                     date_range := dateRangeEcho p.start_date p.end_date } } := by
    rw [discordHybridSearch, if_neg (by simp [hq])]
    simp only [hsem]
  refine ⟨sem, _, hsem, hhyb, ?_, ?_⟩
  · intro r hr
    simp only at hr
    have hr2 := (List.mem_insertionSort hybDesc).mp
      (List.Sublist.mem hr (List.take_sublist _ _))
    obtain ⟨r0, hr0, rfl⟩ := List.mem_map.mp hr2
    rw [annotateHybrid_plain hplain]
    exact ⟨rfl, rfl⟩
  · simp only
    congr 2
    exact List.map_congr_left fun r _ => annotateHybrid_plain hplain p.semantic_weight r

/-- Witness for C4: a concrete plain-keyword hybrid call. -/
theorem C4_hybrid_keyword_blend_witness :
    ∃ sem hyb,
      discordSemanticSearch cEmbed [cD1]
        { (⟨⟨str "hello", none, none, none, none, none, 20⟩, 7/10⟩
          : HybridParams).toDiscordParams with limit := 20 * 2 } = .ok sem ∧
      discordHybridSearch cEmbed [cD1]
        ⟨⟨str "hello", none, none, none, none, none, 20⟩, 7/10⟩ = .ok hyb ∧
      (∀ r ∈ hyb.results,
        r.keyword_score = claimKeywordScore (splitWs (lowerStr (str "hello"))) r.text ∧
        r.hybrid_score = r.similarity * (7/10) + r.keyword_score * (1 - 7/10)) ∧
      hyb.results = ((sem.results.map (fun r =>
        ({ toSemResult := r,
           keyword_score := claimKeywordScore (splitWs (lowerStr (str "hello"))) r.text,
           hybrid_score := r.similarity * (7/10) +
             claimKeywordScore (splitWs (lowerStr (str "hello"))) r.text * (1 - 7/10) }
          : HybResult))).insertionSort hybDesc).take 20 :=
  C4_hybrid_keyword_blend cEmbed [cD1] ⟨⟨str "hello", none, none, none, none, none, 20⟩, 7/10⟩
    (by decide) (by norm_num) (by norm_num) (by decide)
    (by
      intro d hd
      rcases List.mem_cons.mp hd with rfl | hd2
      · rfl
      · exact absurd hd2 (List.not_mem_nil d))

/-- The record of the C4 counterexample: its text is `"abc"`. -/
def xDoc : VectorDoc := ⟨str "x1", [1], ⟨str "abc", none, none, none, none, none, none⟩⟩

/-- The C4 counterexample call: query `"a.c"` (the token contains the
regex metacharacter `.`), no filters, limit 1, weight 1/2. -/
noncomputable def xHybP : HybridParams := ⟨⟨str "a.c", none, none, none, none, none, 1⟩, 1/2⟩

theorem xMap_eval (qs : Str) :
    [xDoc].map (fun d => ({ toVectorDoc := d, similarity := simValue (cEmbed qs) d.embedding }
      : RankedDoc)) = [⟨xDoc, 1⟩] := by
  simp only [List.map_cons, List.map_nil]
  rw [show (cEmbed qs) = [(1:ℝ)] from rfl, show xDoc.embedding = [(1:ℝ)] from rfl,
    simValue_single_one]

theorem xSem2_eval : discordSemanticSearch cEmbed [xDoc]
    { xHybP.toDiscordParams with limit := xHybP.limit * 2 } = .ok
    { query := str "a.c", total_results := 1, results := [toSemResult ⟨xDoc, 1⟩],
      search_type := str "semantic",
      filters := { server_id := str "all", channel_id := str "all", author := str "all",
                   date_range := str "all" } } := by
  have hlen : ∀ d ∈ [xDoc], d.embedding.length =
      (cEmbed ({ xHybP.toDiscordParams with limit := xHybP.limit * 2 }
        : DiscordParams).query).length := by
    intro d hd
    rcases List.mem_cons.mp hd with rfl | hd2
    · rfl
    · exact absurd hd2 (List.not_mem_nil d)
  have hvs : vectorSearch
      (cEmbed ({ xHybP.toDiscordParams with limit := xHybP.limit * 2 } : DiscordParams).query)
      [xDoc] (({ xHybP.toDiscordParams with limit := xHybP.limit * 2 } : DiscordParams).limit * 2)
      = .ok [⟨xDoc, 1⟩] := by
    rw [vectorSearch_ok_eq hlen, xMap_eval]
    rfl
  rw [discordSemanticSearch, if_neg (by decide), hvs]
  rfl

theorem xHyb_eval : discordHybridSearch cEmbed [xDoc] xHybP = .ok
    { query := str "a.c", total_results := 1,
      results := [annotateHybrid (splitWs (lowerStr (str "a.c"))) (1/2) (toSemResult ⟨xDoc, 1⟩)],
      search_type := str "hybrid", weight_semantic := 1/2, weight_keyword := 1 - 1/2,
      filters := { server_id := str "all", channel_id := str "all", author := str "all",
                   date_range := str "all" } } := by
  rw [discordHybridSearch, if_neg (by decide), xSem2_eval]
  rfl

/-- C4 counterexample: on the query `"a.c"` against the candidate text
`"abc"`, the keyword is compiled as a regular expression and `.` matches
`b`, so the code assigns keyword score 1/5, whereas the claim's formula
(the keyword's occurrence count in the text) gives 0: the claim's
per-candidate keyword-score equation is false as stated. -/
theorem C4_cex_regex_metachar :
    ∃ hyb, discordHybridSearch cEmbed [xDoc] xHybP = .ok hyb ∧
      hyb.results.map (fun r => r.keyword_score) = [1/5] ∧
      claimKeywordScore (splitWs (lowerStr (str "a.c"))) (str "abc") = 0 ∧
      ((1:ℝ)/5) ≠ 0 := by
  refine ⟨_, xHyb_eval, ?_, ?_, by norm_num⟩
  · simp only [List.map_cons, List.map_nil]
    have hks : (annotateHybrid (splitWs (lowerStr (str "a.c"))) (1/2)
        (toSemResult ⟨xDoc, 1⟩)).keyword_score = 1/5 := by
      simp only [annotateHybrid, keywordRawScore]
      rw [show splitWs (lowerStr (str "a.c")) = [str "a.c"] from by decide]
      simp only [List.foldl_cons, List.foldl_nil, List.length_cons, List.length_nil]
      rw [show countMatches (str "a.c") (lowerStr (toSemResult ⟨xDoc, (1:ℝ)⟩).text) = 1
        from by decide]
      norm_num
    rw [hks]
  · rw [claimKeywordScore, show splitWs (lowerStr (str "a.c")) = [str "a.c"] from by decide]
    simp only [List.map_cons, List.map_nil, List.length_cons, List.length_nil,
      show occCount (str "a.c") (lowerStr (str "abc")) = 0 from by decide]
    norm_num
